import Mathlib

/-!
Verification of the session-orchestration and streaming-translation core of an
OpenAI-compatible chat-completion gateway written in Rust.

The Rust sources are embedded shallowly:
* `serde_json::Value` becomes the inductive `Json`; `serde_json::from_str` and
  `serde_json::to_string` become an executable strict JSON reader and compact
  writer (objects are kept in sorted key order, mirroring the crate's
  `BTreeMap` representation; integers are modelled exactly, non-integer
  numeric literals keep their source text, which no claim inspects).
* The one regular expression of tools.rs is specialised to an executable
  matcher with the regex crate's leftmost, preference-order semantics
  (greedy `\s*`, lazy `(.*?)`).
* The async session table of manager.rs becomes a state machine over an
  association list; channel-delivered JSONL events become Lean lists.
-/

namespace Gateway

/-- A JSON value, mirroring `serde_json::Value`. -/
inductive Json where
  | null
  | bool (b : Bool)
  | num (n : Int)
  | decimal (lit : String)
  | str (s : String)
  | arr (elems : List Json)
  | obj (fields : List (String × Json))

/-- First value stored under key `k`, as in `serde_json::Map::get`
(keys are unique in any map built by the embedded reader or builders). -/
def fieldLookup (k : String) : List (String × Json) → Option Json
  | [] => none
  | (k2, v) :: t => if k2 = k then some v else fieldLookup k t

/-- `Value::get(key)`: `Some` only on objects. -/
def Json.get : Json → String → Option Json
  | .obj fs, k => fieldLookup k fs
  | _, _ => none

/-- `Value::as_str`. -/
def Json.asStr : Json → Option String
  | .str s => some s
  | _ => none

/-- `Value::as_array`. -/
def Json.asArr : Json → Option (List Json)
  | .arr xs => some xs
  | _ => none

/-- `Value::as_i64`: only exact integers qualify. -/
def Json.asInt : Json → Option Int
  | .num n => some n
  | _ => none

/-- `Value::is_object`. -/
def Json.isObj : Json → Bool
  | .obj _ => true
  | _ => false

def backtickChar : Char := Char.ofNat 96

def lbraceChar : Char := Char.ofNat 123

def rbraceChar : Char := Char.ofNat 125

/-- Rust `char::is_whitespace` / regex `\s`: Unicode `White_Space`. -/
def rustWS (c : Char) : Bool :=
  (9 ≤ c.toNat && c.toNat ≤ 13) || c = ' ' ||
  c.toNat = 0x85 || c.toNat = 0xA0 || c.toNat = 0x1680 ||
  (0x2000 ≤ c.toNat && c.toNat ≤ 0x200A) ||
  c.toNat = 0x2028 || c.toNat = 0x2029 || c.toNat = 0x202F ||
  c.toNat = 0x205F || c.toNat = 0x3000

/-- Rust `str::trim` on a char list. -/
def trimChars (cs : List Char) : List Char :=
  ((cs.dropWhile rustWS).reverse.dropWhile rustWS).reverse

/-- Pack a char list back into a string. -/
def strOf (cs : List Char) : String := ⟨cs⟩

/-- JSON-grammar whitespace (what `serde_json` skips between tokens). -/
def jsonWS (c : Char) : Bool := c = ' ' || c = '\t' || c = '\n' || c = '\r'

def skipWS (cs : List Char) : List Char := cs.dropWhile jsonWS

def hexDigitVal (c : Char) : Option Nat :=
  let n := c.toNat
  if 48 ≤ n && n ≤ 57 then some (n - 48)
  else if 97 ≤ n && n ≤ 102 then some (n - 87)
  else if 65 ≤ n && n ≤ 70 then some (n - 55)
  else none

/-- Body of a JSON string literal after the opening quote: returns the decoded
content and the input remaining after the closing quote.  Escapes follow the
JSON grammar; unescaped control characters are rejected, as `serde_json` does.
(Surrogate `\u` pairs are not combined; no claim exercises them.) -/
def parseStringBody : Nat → List Char → Option (List Char × List Char)
  | 0, _ => none
  | _, [] => none
  | fuel + 1, c :: rest =>
    if c = '"' then some ([], rest)
    else if c = '\\' then
      match rest with
      | [] => none
      | e :: rest2 =>
        let esc : Option (Char × List Char) :=
          if e = '"' then some ('"', rest2)
          else if e = '\\' then some ('\\', rest2)
          else if e = '/' then some ('/', rest2)
          else if e = 'b' then some (Char.ofNat 8, rest2)
          else if e = 'f' then some (Char.ofNat 12, rest2)
          else if e = 'n' then some ('\n', rest2)
          else if e = 'r' then some ('\r', rest2)
          else if e = 't' then some ('\t', rest2)
          else if e = 'u' then
            match rest2 with
            | h1 :: h2 :: h3 :: h4 :: rest3 =>
              match hexDigitVal h1, hexDigitVal h2, hexDigitVal h3, hexDigitVal h4 with
              | some a, some b, some c2, some d =>
                let n := ((a * 16 + b) * 16 + c2) * 16 + d
                if 0xD800 ≤ n && n ≤ 0xDFFF then none
                else some (Char.ofNat n, rest3)
              | _, _, _, _ => none
            | _ => none
          else none
        match esc with
        | some (ch, r) => (parseStringBody fuel r).map fun p => (ch :: p.1, p.2)
        | none => none
    else if c.toNat < 32 then none
    else (parseStringBody fuel rest).map fun p => (c :: p.1, p.2)

def isDigitChar (c : Char) : Bool := 48 ≤ c.toNat && c.toNat ≤ 57

def digitsToNat (ds : List Char) : Nat :=
  ds.foldl (fun a c => a * 10 + (c.toNat - 48)) 0

/-- JSON number token.  An integer literal becomes `Json.num`; a literal with a
fraction or exponent part keeps its text as `Json.decimal`. -/
def parseNumber (cs : List Char) : Option (Json × List Char) :=
  let (sign, cs1) :=
    match cs with
    | '-' :: t => ((['-'] : List Char), t)
    | _ => ([], cs)
  match cs1 with
  | c :: _ =>
    if isDigitChar c then
      let (intDs, cs2) :=
        if c = '0' then ([c], cs1.tail)
        else (cs1.takeWhile isDigitChar, cs1.dropWhile isDigitChar)
      let (fracDs, cs3) :=
        match cs2 with
        | '.' :: t =>
          let ds := t.takeWhile isDigitChar
          if ds.isEmpty then (none, cs2)
          else (some ('.' :: ds), t.dropWhile isDigitChar)
        | _ => (none, cs2)
      if fracDs.isNone && (match cs2 with | '.' :: _ => true | _ => false) then none
      else
        let (expDs, cs4) :=
          match cs3 with
          | e :: t =>
            if e = 'e' || e = 'E' then
              let (sgn, t2) :=
                match t with
                | s :: t2 => if s = '+' || s = '-' then ([s], t2) else ([], t)
                | [] => ([], t)
              let ds := t2.takeWhile isDigitChar
              if ds.isEmpty then (none, cs3)
              else (some (e :: sgn ++ ds), t2.dropWhile isDigitChar)
            else (none, cs3)
          | [] => (none, cs3)
        if (match cs3 with
            | e :: _ => (e = 'e' || e = 'E') && expDs.isNone
            | [] => false) then none
        else
          match fracDs, expDs with
          | none, none =>
            let v : Int := digitsToNat intDs
            some (.num (if sign.isEmpty then v else -v), cs4)
          | f, x =>
            let lit := sign ++ intDs ++ f.getD [] ++ x.getD []
            some (.decimal (strOf lit), cs4)
    else none
  | [] => none

/-- Insert into a sorted key/value list, replacing an existing binding:
`BTreeMap::insert`.  Keys are compared pointwise on code points, which agrees
with the byte order `BTreeMap<String, _>` uses. -/
def strLtChars : List Char → List Char → Bool
  | [], [] => false
  | [], _ :: _ => true
  | _ :: _, [] => false
  | a :: as2, b :: bs => if a < b then true else if b < a then false else strLtChars as2 bs

def keyLt (a b : String) : Bool := strLtChars a.data b.data

def objInsert (k : String) (v : Json) : List (String × Json) → List (String × Json)
  | [] => [(k, v)]
  | (k2, v2) :: t =>
    if k = k2 then (k, v) :: t
    else if keyLt k k2 then (k, v) :: (k2, v2) :: t
    else (k2, v2) :: objInsert k v t

/-- Build an object the way the `json!` macro does: keys inserted left to
right into a `BTreeMap` (sorted, later duplicates win). -/
def mkObj (fields : List (String × Json)) : Json :=
  .obj (fields.foldl (fun acc kv => objInsert kv.1 kv.2 acc) [])

mutual

/-- One JSON value, by recursive descent; fuel only bounds nesting. -/
def parseValue : Nat → List Char → Option (Json × List Char)
  | 0, _ => none
  | fuel + 1, cs =>
    match skipWS cs with
    | [] => none
    | c :: rest =>
      if c = 'n' then
        match rest with
        | 'u' :: 'l' :: 'l' :: r => some (.null, r)
        | _ => none
      else if c = 't' then
        match rest with
        | 'r' :: 'u' :: 'e' :: r => some (.bool true, r)
        | _ => none
      else if c = 'f' then
        match rest with
        | 'a' :: 'l' :: 's' :: 'e' :: r => some (.bool false, r)
        | _ => none
      else if c = '"' then
        (parseStringBody (rest.length + 1) rest).map fun p => (.str (strOf p.1), p.2)
      else if c = '[' then
        match skipWS rest with
        | ']' :: r => some (.arr [], r)
        | cs2 => (parseElems fuel cs2).map fun p => (.arr p.1, p.2)
      else if c = lbraceChar then
        let r0 := skipWS rest
        if r0.head? = some rbraceChar then some (.obj [], r0.tail)
        else (parseMembers fuel [] r0).map fun p => (.obj p.1, p.2)
      else parseNumber (c :: rest)

def parseElems : Nat → List Char → Option (List Json × List Char)
  | 0, _ => none
  | fuel + 1, cs =>
    match parseValue fuel cs with
    | none => none
    | some (v, r) =>
      match skipWS r with
      | ',' :: r2 => (parseElems fuel r2).map fun p => (v :: p.1, p.2)
      | ']' :: r2 => some ([v], r2)
      | _ => none

def parseMembers : Nat → List (String × Json) → List Char →
    Option (List (String × Json) × List Char)
  | 0, _, _ => none
  | fuel + 1, acc, cs =>
    match skipWS cs with
    | '"' :: r =>
      match parseStringBody (r.length + 1) r with
      | none => none
      | some (k, r2) =>
        match skipWS r2 with
        | ':' :: r3 =>
          match parseValue fuel r3 with
          | none => none
          | some (v, r4) =>
            let acc2 := objInsert (strOf k) v acc
            match skipWS r4 with
            | ',' :: r5 => parseMembers fuel acc2 r5
            | r6 =>
              if r6.head? = some rbraceChar then some (acc2, r6.tail)
              else none
        | _ => none
    | _ => none

end

/-- `serde_json::from_str::<Value>`: one value, then only whitespace. -/
def parseJson (cs : List Char) : Option Json :=
  match parseValue (cs.length + 2) cs with
  | some (v, rest) => if skipWS rest = [] then some v else none
  | none => none

def hexChar (n : Nat) : Char :=
  if n < 10 then Char.ofNat (48 + n) else Char.ofNat (87 + n)

/-- How `serde_json` escapes one character inside a string literal. -/
def escChar (c : Char) : List Char :=
  if c = '"' then ['\\', '"']
  else if c = '\\' then ['\\', '\\']
  else if c = '\n' then ['\\', 'n']
  else if c = '\r' then ['\\', 'r']
  else if c = '\t' then ['\\', 't']
  else if c = Char.ofNat 8 then ['\\', 'b']
  else if c = Char.ofNat 12 then ['\\', 'f']
  else if c.toNat < 32 then ['\\', 'u', '0', '0', hexChar (c.toNat / 16), hexChar (c.toNat % 16)]
  else [c]

def serStr (s : String) : List Char := '"' :: s.data.flatMap escChar ++ ['"']

mutual

/-- `serde_json::to_string` (compact form; object keys already sorted). -/
def serJson : Json → List Char
  | .null => "null".data
  | .bool true => "true".data
  | .bool false => "false".data
  | .num n => (toString n).data
  | .decimal lit => lit.data
  | .str s => serStr s
  | .arr xs => '[' :: serArrItems xs ++ [']']
  | .obj fs => lbraceChar :: serObjItems fs ++ [rbraceChar]

def serArrItems : List Json → List Char
  | [] => []
  | [x] => serJson x
  | x :: y :: t => serJson x ++ ',' :: serArrItems (y :: t)

def serObjItems : List (String × Json) → List Char
  | [] => []
  | [(k, v)] => serStr k ++ ':' :: serJson v
  | (k, v) :: f :: t => serStr k ++ ':' :: serJson v ++ ',' :: serObjItems (f :: t)

end

def serializeJson (j : Json) : String := strOf (serJson j)

/-! ## Message Translator — src/src/claude/parser.rs -/

/-- The per-block closure inside `extract_assistant_content`:
`item.get("type")?.as_str()? == "text"`, then `item.get("text")?.as_str()`. -/
def codeBlockText (item : Json) : Option String :=
  match item.get "type" with
  | some (.str t) =>
    if t = "text" then
      match item.get "text" with
      | some (.str txt) => some txt
      | _ => none
    else none
  | _ => none

/-- `extract_assistant_content`: text of a backend assistant event. -/
def extract_assistant_content (msg : Json) : Option String :=
  match msg.get "message" with
  | none => none
  | some message =>
    match message.get "content" with
    | none => none
    | some content =>
      match content with
      | .str s =>
        let trimmed := trimChars s.data
        if trimmed.isEmpty then none else some (strOf trimmed)
      | .arr blocks =>
        let parts : List String := blocks.filterMap codeBlockText
        let joined := String.intercalate "\n" parts
        if (trimChars joined.data).isEmpty then none else some joined
      | _ => none

/-- `is_assistant_message`. -/
def is_assistant_message (msg : Json) : Bool :=
  (match msg.get "type" with
   | some (.str t) => t = "assistant"
   | _ => false) &&
  (match msg.get "message" with
   | some m => (m.get "content").isSome
   | none => false)

/-- `is_result_message`. -/
def is_result_message (msg : Json) : Bool :=
  match msg.get "type" with
  | some (.str t) => t = "result"
  | _ => false

/-- The spec's own wording of `extract_text`, for the refinement claim: string
content gives trimmed text or absent-if-empty; list content concatenates the
`text` field of every block whose `type` is `"text"`, joined by newlines,
absent if the result is blank; any other shape is absent. -/
def specBlockText (b : Json) : Option String :=
  match b.get "type", b.get "text" with
  | some (.str ty), some (.str txt) => if ty = "text" then some txt else none
  | _, _ => none

def extract_text_spec (content : Json) : Option String :=
  match content with
  | .str s =>
    let t := trimChars s.data
    if t.isEmpty then none else some (strOf t)
  | .arr blocks =>
    let texts : List String := blocks.filterMap specBlockText
    let joined := String.intercalate "\n" texts
    if (trimChars joined.data).isEmpty then none else some joined
  | _ => none

/-! ## Tool-Call Protocol — src/src/tools.rs

The pattern `(?s)```tool_call\s*\n(.*?)\n``` ` is specialised to an executable
matcher.  At a given start position the regex engine's preference order is:
consume the literal, let greedy `\s*` take the longest whitespace prefix that
still leaves a `\n` (so it backtracks to newline positions from last to
first), then let lazy `(.*?)` stop at the earliest `\n``` `.  `captures_iter`
scans for the leftmost match, then resumes after the match's end. -/

def fencedLit : List Char := "```tool_call".data

def closeLit : List Char := "\n```".data

/-- Indices of `'\n'` in a char run, largest first (the order greedy `\s*`
backtracks through). -/
def newlinePositions : List Char → List Nat
  | [] => []
  | c :: t =>
    let rest := (newlinePositions t).map (· + 1)
    if c = '\n' then rest ++ [0] else rest

/-- Split at the first occurrence of `"\n``` "`: lazy `(.*?)\n``` `.
Returns the capture and the input remaining after the closing fence. -/
def findClose : List Char → Option (List Char × List Char)
  | [] => none
  | c :: cs =>
    if closeLit.isPrefixOf (c :: cs) then some ([], cs.drop 3)
    else
      match findClose cs with
      | some (body, rest) => some (c :: body, rest)
      | none => none

/-- Try newline positions in backtracking order; `k` is the index (within the
whitespace run after the literal) of the newline that ends `\s*\n`. -/
def tryNlPositions : List Nat → List Char → Option (Nat × List Char × List Char)
  | [], _ => none
  | k :: ks, afterLit =>
    match findClose (afterLit.drop (k + 1)) with
    | some (body, rest) => some (k, body, rest)
    | none => tryNlPositions ks afterLit

/-- Match the fenced pattern exactly at the start of `cs`; on success returns
(whole matched span, capture group, remaining input). -/
def matchFencedAt (cs : List Char) : Option (List Char × List Char × List Char) :=
  if fencedLit.isPrefixOf cs then
    match tryNlPositions (newlinePositions ((cs.drop 12).takeWhile rustWS)) (cs.drop 12) with
    | some (k, body, rest) =>
      some (fencedLit ++ (cs.drop 12).take (k + 1) ++ body ++ closeLit, body, rest)
    | none => none
  else none

/-- One regex match: the gap since the previous match's end, the capture
group, and the whole matched span. -/
structure TcMatch where
  pre : List Char
  body : List Char
  whole : List Char

/-- Scan as `captures_iter` does: try a match at each position left to right,
never overlapping; collect matches and the trailing gap. -/
def scanFencedAux : Nat → List Char → List Char → List TcMatch × List Char
  | 0, revPre, cs => ([], revPre.reverse ++ cs)
  | fuel + 1, revPre, cs =>
    (matchFencedAt cs).casesOn
      (cs.casesOn ([], revPre.reverse) fun c t => scanFencedAux fuel (c :: revPre) t)
      (fun trip =>
        (⟨revPre.reverse, trip.2.1, trip.1⟩ :: (scanFencedAux fuel [] trip.2.2).1,
          (scanFencedAux fuel [] trip.2.2).2))

def scanFenced (cs : List Char) : List TcMatch × List Char :=
  scanFencedAux (cs.length + 1) [] cs

/-- Original text = gaps and matched spans interleaved (what the scan walked). -/
def interleaveMatches : List TcMatch → List Char → List Char
  | [], trail => trail
  | m :: t, trail => m.pre ++ m.whole ++ interleaveMatches t trail

/-- `Regex::replace_all(text, "")`: every matched span deleted, gaps kept. -/
def gapsJoin : List TcMatch → List Char → List Char
  | [], trail => trail
  | m :: t, trail => m.pre ++ gapsJoin t trail

structure FunctionCall where
  name : String
  arguments : String
deriving DecidableEq

structure ToolCall where
  id : String
  call_type : String
  function : FunctionCall
deriving DecidableEq

/-- tools.rs `generate_tool_call_id` returns `"call_"` followed by a fresh
UUIDv4 in simple form.  The uuid crate is external and random; it is modelled
as a fresh-id supply indexed by creation order, injective by construction. -/
def generate_tool_call_id (k : Nat) : String :=
  "call_" ++ strOf (List.replicate (k + 1) 'u')

/-- Decode one captured block body: `cap[1].trim()`, parse as JSON, require a
string `name`, default `arguments` to `{}`.  Both Rust serialisation branches
(`to_string(&arguments)` for objects, `arguments.to_string()` otherwise)
produce the same compact JSON encoding. -/
def decodeToolCall (body : List Char) : Option (String × String) :=
  match parseJson (trimChars body) with
  | none => none
  | some data =>
    match data.get "name" with
    | some (.str n) =>
      let args := (data.get "arguments").getD (Json.obj [])
      some (n, serializeJson args)
    | _ => none

/-- `parse_tool_calls`: fenced `tool_call` blocks out of generated text. -/
def parse_tool_calls (text : String) : Option (List ToolCall) × String :=
  let scanned := scanFenced text.data
  if scanned.1.isEmpty then (none, text)
  else
    let decoded := scanned.1.filterMap fun m => decodeToolCall m.body
    let calls := decoded.enum.map fun p =>
      ToolCall.mk (generate_tool_call_id p.1) "function" (FunctionCall.mk p.2.1 p.2.2)
    if calls.isEmpty then (none, text)
    else (some calls, strOf (trimChars (gapsJoin scanned.1 scanned.2)))

/-! ## Streaming Emitter — src/src/streaming.rs -/

/-- `sse_event`: one `data:` frame. -/
def sse_event (data : Json) : String := "data: " ++ serializeJson data ++ "\n\n"

/-- `sse_done`: the end-of-stream marker. -/
def sse_done : String := "data: [DONE]\n\n"

/-- `initial_chunk` (role `assistant`, empty content). -/
def initial_chunk (id model : String) (created : Int) : Json :=
  mkObj [("id", .str id), ("object", .str "chat.completion.chunk"),
    ("created", .num created), ("model", .str model),
    ("choices", .arr [mkObj [("index", .num 0),
      ("delta", mkObj [("role", .str "assistant"), ("content", .str "")]),
      ("finish_reason", .null)]])]

/-- `content_chunk`. -/
def content_chunk (id model : String) (created : Int) (content : String) : Json :=
  mkObj [("id", .str id), ("object", .str "chat.completion.chunk"),
    ("created", .num created), ("model", .str model),
    ("choices", .arr [mkObj [("index", .num 0),
      ("delta", mkObj [("content", .str content)]),
      ("finish_reason", .null)]])]

/-- `final_chunk`. -/
def final_chunk (id model : String) (created : Int) (finish_reason : String) : Json :=
  mkObj [("id", .str id), ("object", .str "chat.completion.chunk"),
    ("created", .num created), ("model", .str model),
    ("choices", .arr [mkObj [("index", .num 0),
      ("delta", mkObj []),
      ("finish_reason", .str finish_reason)]])]

/-- The role-open chunk `wrap_response_as_sse` builds inline (delta has only
the role, no content field). -/
def replay_role_chunk (id model : String) (created : Int) : Json :=
  mkObj [("id", .str id), ("object", .str "chat.completion.chunk"),
    ("created", .num created), ("model", .str model),
    ("choices", .arr [mkObj [("index", .num 0),
      ("delta", mkObj [("role", .str "assistant")]),
      ("finish_reason", .null)]])]

/-- The index-tagged tool-call delta chunk `wrap_response_as_sse` builds for
the `i`-th tool call of the replayed response. -/
def replay_tool_call_chunk (id model : String) (created : Int) (i : Nat) (tc : Json) : Json :=
  mkObj [("id", .str id), ("object", .str "chat.completion.chunk"),
    ("created", .num created), ("model", .str model),
    ("choices", .arr [mkObj [("index", .num 0),
      ("delta", mkObj [("tool_calls", .arr [mkObj [
        ("index", .num i),
        ("id", (tc.get "id").getD .null),
        ("type", .str "function"),
        ("function", (tc.get "function").getD .null)]])]),
      ("finish_reason", .null)]])]

/-- `wrap_response_as_sse`: replay a complete response as an SSE sequence. -/
def wrap_response_as_sse (response : Json) : List String :=
  let id := ((response.get "id").bind Json.asStr).getD "chatcmpl-unknown"
  let created := ((response.get "created").bind Json.asInt).getD 0
  let model := ((response.get "model").bind Json.asStr).getD "unknown"
  let ev0 := sse_event (replay_role_chunk id model created)
  match ((response.get "choices").bind Json.asArr).bind List.head? with
  | none => [ev0, sse_done]
  | some choice =>
    let message := choice.get "message"
    let content := (message.bind fun m => m.get "content").bind Json.asStr
    let tool_calls := (message.bind fun m => m.get "tool_calls").bind Json.asArr
    let finish_reason := ((choice.get "finish_reason").bind Json.asStr).getD "stop"
    let contentEvs :=
      match content with
      | some text => [sse_event (content_chunk id model created text)]
      | none => []
    let tcEvs :=
      match tool_calls with
      | some tcs => tcs.enum.map fun p =>
          sse_event (replay_tool_call_chunk id model created p.1 p.2)
      | none => []
    ev0 :: (contentEvs ++ tcEvs ++ [sse_event (final_chunk id model created finish_reason), sse_done])

/-! ## Response serialisation — src/src/models/openai.rs

`serde_json::to_value(&ChatCompletionResponse)`: `skip_serializing_if`
omits absent `content` / `tool_calls`; maps are sorted. -/

def toolCallJson (tc : ToolCall) : Json :=
  mkObj [("id", .str tc.id), ("type", .str tc.call_type),
    ("function", mkObj [("name", .str tc.function.name),
      ("arguments", .str tc.function.arguments)])]

def chatMessageResponseJson (content : Option String)
    (tool_calls : Option (List ToolCall)) : Json :=
  mkObj ([("role", Json.str "assistant")]
    ++ (match content with
        | some c => [("content", Json.str c)]
        | none => [])
    ++ (match tool_calls with
        | some tcs => [("tool_calls", Json.arr (tcs.map toolCallJson))]
        | none => []))

def chatCompletionResponseJson (id : String) (created : Int) (model : String)
    (content : Option String) (tool_calls : Option (List ToolCall))
    (finish_reason : String) (prompt_tokens completion_tokens : Nat)
    (session_id project_id : String) : Json :=
  mkObj [("id", .str id), ("object", .str "chat.completion"),
    ("created", .num created), ("model", .str model),
    ("choices", .arr [mkObj [("index", .num 0),
      ("message", chatMessageResponseJson content tool_calls),
      ("finish_reason", .str finish_reason)]]),
    ("usage", mkObj [("prompt_tokens", .num prompt_tokens),
      ("completion_tokens", .num completion_tokens),
      ("total_tokens", .num (prompt_tokens + completion_tokens))]),
    ("session_id", .str session_id), ("project_id", .str project_id)]

/-! ## Completion Flow Controller — src/src/routes/chat.rs -/

structure BufferedOutcome where
  content : Option String
  tool_calls : Option (List ToolCall)
  finish_reason : String
deriving DecidableEq

/-- The buffered event loop of `create_chat_completion` (lines 285-299):
push each assistant event's extracted text, stop at the first result event. -/
def collectContentParts : List Json → List String
  | [] => []
  | msg :: rest =>
    let here :=
      if is_assistant_message msg then
        match extract_assistant_content msg with
        | some t => [t]
        | none => []
      else []
    if is_result_message msg then here
    else here ++ collectContentParts rest

def fallbackGreeting : String := "Hello! I'm Claude, ready to help."

/-- Lines 306-324 of chat.rs: accumulated content (friendly fallback when no
text was extracted), optional tool-call decoding, and the response triple. -/
def buffered_response (events : List Json) (has_tools : Bool) : BufferedOutcome :=
  let content_parts := collectContentParts events
  let complete_content :=
    if content_parts.isEmpty then fallbackGreeting
    else String.intercalate "\n" content_parts
  let parsed := if has_tools then parse_tool_calls complete_content else (none, complete_content)
  if parsed.1.isSome then ⟨none, parsed.1, "tool_calls"⟩
  else ⟨some parsed.2, none, "stop"⟩

/-- The spec-worded accumulation, for the refinement claim: extracted texts of
assistant events before the first result event, in arrival order. -/
def specContentParts (events : List Json) : List String :=
  (events.takeWhile fun m => !is_result_message m).filterMap fun m =>
    if is_assistant_message m then extract_assistant_content m else none

/-- The buffered outcome as a function of the accumulated content alone. -/
def outcomeOfContent (complete_content : String) (has_tools : Bool) : BufferedOutcome :=
  let parsed := if has_tools then parse_tool_calls complete_content else (none, complete_content)
  if parsed.1.isSome then ⟨none, parsed.1, "tool_calls"⟩
  else ⟨some parsed.2, none, "stop"⟩

/-- The token-streaming event loop of `create_chat_completion` (lines
221-246): a content chunk per assistant event with extractable text, stop at
the first result event. -/
def streamLoopChunks (id model : String) (created : Int) : List Json → List String
  | [] => []
  | msg :: rest =>
    let here :=
      if is_assistant_message msg then
        match extract_assistant_content msg with
        | some content => [sse_event (content_chunk id model created content)]
        | none => []
      else []
    if is_result_message msg then here
    else here ++ streamLoopChunks id model created rest

/-- The whole SSE sequence of the token-streaming path (lines 211-259):
initial chunk, the loop's content chunks, final chunk "stop", end marker. -/
def token_stream_sse (id model : String) (created : Int) (events : List Json) : List String :=
  sse_event (initial_chunk id model created) ::
    (streamLoopChunks id model created events
      ++ [sse_event (final_chunk id model created "stop"), sse_done])

/-! ## Process Driver — src/src/claude/process.rs -/

/-- The synthetic event wrapped around a non-JSON output line. -/
def synthetic_text_event (line : String) : Json :=
  mkObj [("type", Json.str "text"), ("content", Json.str line)]

/-- The reader task's treatment of one line after the first (lines 124-144):
blank lines skipped, JSON delivered, anything else wrapped as text. -/
def handle_line (line : String) : Option Json :=
  if (trimChars line.data).isEmpty then none
  else
    match parseJson line.data with
    | some v => some v
    | none => some (synthetic_text_event line)

/-- Events delivered through the channel for a whole stdout line sequence:
the first line is delivered only if it parses as JSON (lines 112-119),
the rest through `handle_line`. -/
def delivered_events : List String → List Json
  | [] => []
  | first :: rest =>
    (match parseJson first.data with
     | some v => [v]
     | none => []) ++ rest.filterMap handle_line

/-! ## Session Orchestrator — src/src/claude/manager.rs

The async `RwLock<HashMap<String, ClaudeProcess>>` (all table mutations are
serialised by the write lock) becomes a sequential state machine over an
association list; each spawned process is identified by a fresh handle so
kill/reap accounting can be stated. -/

inductive AppError where
  | BadRequest (msg : String)
  | Unauthorized (msg : String)
  | NotFound (msg : String)
  | RateLimited
  | ServiceUnavailable (msg : String)
  | Internal (msg : String)
deriving DecidableEq

inductive Fate where
  | killed
  | reaped
deriving DecidableEq

structure SysState where
  active : List (String × Nat)
  fates : List (Nat × Fate)
  next : Nat
  max_concurrent : Nat
deriving DecidableEq

def lookupKey (k : String) : List (String × Nat) → Option Nat
  | [] => none
  | (k2, v) :: t => if k2 = k then some v else lookupKey k t

/-- `HashMap::insert`: replaces the binding of an existing key. -/
def insertKey (k : String) (v : Nat) : List (String × Nat) → List (String × Nat)
  | [] => [(k, v)]
  | (k2, v2) :: t => if k2 = k then (k, v) :: t else (k2, v2) :: insertKey k v t

/-- `HashMap::remove`. -/
def removeKey (k : String) : List (String × Nat) → List (String × Nat)
  | [] => []
  | (k2, v2) :: t => if k2 = k then t else (k2, v2) :: removeKey k t

def capacityError (maxC : Nat) : AppError :=
  .ServiceUnavailable ("Maximum concurrent sessions (" ++ toString maxC ++ ") reached")

/-- `ClaudeProcess::kill` (process.rs lines 158-161): forced termination,
recorded as the `killed` fate of the process handle. -/
def kill_process (handle : Nat) : Nat × Fate := (handle, Fate.killed)

/-- Modelled from the spec: `ClaudeProcess::reap` is invoked by
`ClaudeManager::session_finished` (manager.rs line 85) but is not defined in
process.rs under src/, which defines only `kill`; per the spec it "waits for
natural process exit (reap) without forced termination".  Recorded as the
`reaped` fate of the process handle. -/
def reap_process (handle : Nat) : Nat × Fate := (handle, Fate.reaped)

/-- `ClaudeManager::create_session`: capacity check, then spawn (its outcome,
including the backend-assigned session id, is the `spawn` argument), then
insertion keyed by the native id when known, else the client id.  The fresh
handle `st.next` stands for the spawned `ClaudeProcess` value. -/
def create_session (st : SysState) (session_id : String)
    (spawn : Except AppError (Option String)) :
    Except AppError (SysState × Option String) :=
  if st.active.length ≥ st.max_concurrent then .error (capacityError st.max_concurrent)
  else
    match spawn with
    | .error e => .error e
    | .ok claude_sid =>
      let key := claude_sid.getD session_id
      .ok ({ st with active := insertKey key st.next st.active, next := st.next + 1 },
        claude_sid)

/-- `ClaudeManager::stop_session`: remove if present and kill. -/
def stop_session (st : SysState) (k : String) : SysState :=
  match lookupKey k st.active with
  | some p => { st with active := removeKey k st.active, fates := st.fates ++ [kill_process p] }
  | none => st

/-- `ClaudeManager::session_finished`: remove if present and reap. -/
def session_finished (st : SysState) (k : String) : SysState :=
  match lookupKey k st.active with
  | some p => { st with active := removeKey k st.active, fates := st.fates ++ [reap_process p] }
  | none => st

inductive MgrOp where
  | create (session_id : String) (claude_sid : Option String)
  | stop (session_id : String)
  | finished (session_id : String)

def applyOp (st : SysState) : MgrOp → SysState
  | .create sid csid =>
    match create_session st sid (.ok csid) with
    | .ok (st2, _) => st2
    | .error _ => st
  | .stop k => stop_session st k
  | .finished k => session_finished st k

def runOps (st : SysState) (ops : List MgrOp) : SysState := ops.foldl applyOp st

def initState (maxC : Nat) : SysState := ⟨[], [], 0, maxC⟩

/-! ## Helper lemmas -/

theorem blockText_match_eq (b : Json) : codeBlockText b = specBlockText b := by
  unfold codeBlockText specBlockText
  cases hty : b.get "type" with
  | none => rfl
  | some v =>
    cases v <;> try rfl
    case str t =>
      cases htx : b.get "text" with
      | none => by_cases ht : t = "text" <;> simp [ht]
      | some w => cases w <;> by_cases ht : t = "text" <;> simp [ht]

theorem parse_tool_calls_none_snd (text : String)
    (h : (parse_tool_calls text).1 = none) : (parse_tool_calls text).2 = text := by
  unfold parse_tool_calls at *
  by_cases he : (scanFenced text.data).1.isEmpty
  · simp [he]
  · cases hd : (scanFenced text.data).1.filterMap fun m => decodeToolCall m.body with
    | nil => simp [he, hd]
    | cons d t =>
      exfalso
      simp only [he, Bool.false_eq_true, if_false, hd] at h
      simp [List.enum] at h

/-! ## Claims -/

/-- C6: `extract_assistant_content` on string content `"  hello  "` yields
`"hello"`, on an empty block list yields none, on two text blocks `"A"`,`"B"`
yields `"A\nB"`; and in general on any content value it implements the spec's
wording `extract_text_spec` (string content trimmed and absent-if-empty; list
content joins the `text` of `type = "text"` blocks with newlines, absent if
blank; other shapes absent). -/
theorem C6_extract_text :
    (extract_assistant_content
      (mkObj [("message", mkObj [("content", Json.str "  hello  ")])]) = some "hello")
  ∧ (extract_assistant_content
      (mkObj [("message", mkObj [("content", Json.arr [])])]) = none)
  ∧ (extract_assistant_content
      (mkObj [("message", mkObj [("content", Json.arr
        [mkObj [("type", Json.str "text"), ("text", Json.str "A")],
         mkObj [("type", Json.str "text"), ("text", Json.str "B")]])])]) = some "A\nB")
  ∧ (∀ c : Json,
      extract_assistant_content (mkObj [("message", mkObj [("content", c)])])
        = extract_text_spec c) := by
  refine ⟨rfl, rfl, rfl, fun c => ?_⟩
  cases c <;> try rfl
  case arr blocks =>
    have hfm : blocks.filterMap codeBlockText = blocks.filterMap specBlockText :=
      List.filterMap_congr fun b _ => blockText_match_eq b
    show (let parts := blocks.filterMap codeBlockText
          let joined := String.intercalate "\n" parts
          if (trimChars joined.data).isEmpty then none else some joined)
        = extract_text_spec (.arr blocks)
    rw [show extract_text_spec (.arr blocks)
        = (let texts := blocks.filterMap specBlockText
           let joined := String.intercalate "\n" texts
           if (trimChars joined.data).isEmpty then none else some joined) from rfl]
    simp only [hfm]

/-- C8: on text with no fenced `tool_call` block, and on text where no matched
block decodes to a call, `parse_tool_calls` returns no calls and the original
text unchanged. -/
theorem C8_no_calls_identity (text : String)
    (h : (scanFenced text.data).1 = []
      ∨ (scanFenced text.data).1.filterMap (fun m => decodeToolCall m.body) = []) :
    parse_tool_calls text = (none, text) := by
  unfold parse_tool_calls
  rcases h with h | h
  · simp [h]
  · by_cases he : (scanFenced text.data).1.isEmpty
    · simp [he]
    · simp [he, h]

/-- C8 witness: a text with a fenced block whose body is not valid JSON has a
match but no decodable block, and comes back unchanged with no calls. -/
theorem C8_witness :
    ((scanFenced ("before ```tool_call\nnot json\n``` after").data).1.filterMap
      (fun m => decodeToolCall m.body) = [])
  ∧ parse_tool_calls "before ```tool_call\nnot json\n``` after"
      = (none, "before ```tool_call\nnot json\n``` after") :=
  ⟨rfl, C8_no_calls_identity "before ```tool_call\nnot json\n``` after" (Or.inr rfl)⟩

/-- C5 counterexample: the first stdout line is treated specially (process.rs
lines 112-119) — when it fails to parse as JSON it is dropped without a
synthetic text event, while the stream continues with later lines.  Here the
first line "oops" yields nothing; only the parsed second line is delivered. -/
theorem C5_counterexample :
    delivered_events ["oops", "\x7b\"type\":\"result\"\x7d"]
      = [Json.obj [("type", Json.str "result")]]
  ∧ synthetic_text_event "oops" ∉ delivered_events ["oops", "\x7b\"type\":\"result\"\x7d"] := by
  refine ⟨rfl, ?_⟩
  intro hmem
  rw [show delivered_events ["oops", "\x7b\"type\":\"result\"\x7d"]
      = [Json.obj [("type", Json.str "result")]] from rfl] at hmem
  rw [show synthetic_text_event "oops"
      = Json.obj [("content", Json.str "oops"), ("type", Json.str "text")] from rfl] at hmem
  simp at hmem

/-- C5 (amended): for every non-blank line after the first, a JSON parse
failure does not abort the stream — the line is wrapped into a synthetic text
event, in place, and later lines are still processed; a first line that fails
to parse is silently dropped (no synthetic event), though the rest of the
stream is still delivered. -/
theorem C5_line_handling :
    (∀ (first line : String) (pre post : List String),
      (trimChars line.data).isEmpty = false →
      parseJson line.data = none →
      delivered_events (first :: (pre ++ line :: post))
        = delivered_events (first :: pre)
          ++ synthetic_text_event line :: post.filterMap handle_line)
  ∧ (∀ (first : String) (rest : List String),
      parseJson first.data = none →
      delivered_events (first :: rest) = rest.filterMap handle_line) := by
  constructor
  · intro first line pre post hblank hparse
    have hline : handle_line line = some (synthetic_text_event line) := by
      unfold handle_line
      rw [hblank, hparse]
      rfl
    show (match parseJson first.data with | some v => [v] | none => [])
        ++ (pre ++ line :: post).filterMap handle_line
      = ((match parseJson first.data with | some v => [v] | none => [])
        ++ pre.filterMap handle_line)
        ++ synthetic_text_event line :: post.filterMap handle_line
    rw [List.filterMap_append, List.filterMap_cons, hline]
    simp
  · intro first rest hparse
    show (match parseJson first.data with | some v => [v] | none => [])
        ++ rest.filterMap handle_line
      = rest.filterMap handle_line
    rw [hparse]
    simp

/-- C5 witness: a concrete non-blank unparsable later line is wrapped and the
stream continues; a concrete unparsable first line yields only the rest. -/
theorem C5_witness :
    (delivered_events ["start", "bad json", "\x7b\"a\":1\x7d"]
      = delivered_events ["start"]
        ++ synthetic_text_event "bad json" :: [("\x7b\"a\":1\x7d" : String)].filterMap handle_line)
  ∧ delivered_events ["nope", "\x7b\"a\":1\x7d"]
      = [("\x7b\"a\":1\x7d" : String)].filterMap handle_line :=
  ⟨C5_line_handling.1 "start" "bad json" [] ["\x7b\"a\":1\x7d"] rfl rfl,
   C5_line_handling.2 "nope" ["\x7b\"a\":1\x7d"] rfl⟩

theorem lookupKey_removeKey_length (k : String) :
    ∀ (l : List (String × Nat)) (p : Nat), lookupKey k l = some p →
      (removeKey k l).length + 1 = l.length := by
  intro l
  induction l with
  | nil => intro p h; cases h
  | cons e t ih =>
    intro p h
    by_cases hk : e.1 = k
    · simp [removeKey, lookupKey, hk]
    · rw [show removeKey k (e :: t) = e :: removeKey k t by
        rcases e with ⟨k2, v2⟩; simp [removeKey, hk]]
      have ht : lookupKey k t = some p := by
        rcases e with ⟨k2, v2⟩
        simpa [lookupKey, hk] using h
      simpa using ih p ht

/-- C4: `create_session` fails with the `ServiceUnavailable` capacity error
exactly when the tracked-session count is at or above the ceiling, and
otherwise inserts the spawned process keyed by the native-or-client id; with
the table full, creation fails whatever the spawn would do, and after
`stop_session` or `session_finished` removes a tracked entry a new creation
succeeds. -/
theorem C4_session_ceiling :
    (∀ (st : SysState) (sid : String) (spawn : Except AppError (Option String)),
      st.active.length ≥ st.max_concurrent →
      create_session st sid spawn = .error (capacityError st.max_concurrent))
  ∧ (∀ (st : SysState) (sid : String) (csid : Option String),
      st.active.length < st.max_concurrent →
      create_session st sid (.ok csid)
        = .ok (SysState.mk (insertKey (csid.getD sid) st.next st.active)
            st.fates (st.next + 1) st.max_concurrent, csid))
  ∧ (∀ (st : SysState) (k : String) (p : Nat) (sid : String) (csid : Option String),
      st.active.length = st.max_concurrent →
      lookupKey k st.active = some p →
      (∀ spawn, create_session st sid spawn = .error (capacityError st.max_concurrent))
      ∧ (create_session (stop_session st k) sid (.ok csid)).isOk = true
      ∧ (create_session (session_finished st k) sid (.ok csid)).isOk = true) := by
  refine ⟨?_, ?_, ?_⟩
  · intro st sid spawn h
    unfold create_session
    rw [if_pos h]
  · intro st sid csid h
    unfold create_session
    rw [if_neg (Nat.not_le.mpr h)]
  · intro st k p sid csid hfull hmem
    have hlen := lookupKey_removeKey_length k st.active p hmem
    have hlt : (removeKey k st.active).length < st.max_concurrent := by omega
    refine ⟨fun spawn => ?_, ?_, ?_⟩
    · unfold create_session
      rw [if_pos (le_of_eq hfull.symm)]
    · unfold stop_session
      rw [hmem]
      unfold create_session
      rw [if_neg (Nat.not_le.mpr hlt)]
      rfl
    · unfold session_finished
      rw [hmem]
      unfold create_session
      rw [if_neg (Nat.not_le.mpr hlt)]
      rfl

/-- C4 witness: with ceiling 1 and one tracked session, creation fails with
the capacity error; after stopping that session, creation succeeds. -/
theorem C4_witness :
    (create_session ⟨[("a", 0)], [], 1, 1⟩ "b" (.ok none)
      = .error (capacityError 1))
  ∧ (create_session (stop_session ⟨[("a", 0)], [], 1, 1⟩ "a") "b" (.ok none)).isOk = true :=
  ⟨((C4_session_ceiling.2.2 ⟨[("a", 0)], [], 1, 1⟩ "a" 0 "b" none rfl rfl).1 (.ok none)),
   (C4_session_ceiling.2.2 ⟨[("a", 0)], [], 1, 1⟩ "a" 0 "b" none rfl rfl).2.1⟩

/-- The accumulated content of the buffered loop: joined parts, or the fixed
friendly fallback when no assistant text was extracted (chat.rs 306-310). -/
def accumulatedContent (events : List Json) : String :=
  if (collectContentParts events).isEmpty then fallbackGreeting
  else String.intercalate "\n" (collectContentParts events)

/-- C2: in buffered mode with tools, tool-call decoding runs over the
accumulated text; decoded calls make the response carry the structured calls,
no text content, finish reason "tool_calls"; otherwise it carries the
cleaned text (which is then the accumulated text itself) with "stop"; and
when no assistant text was extracted the content is the fixed friendly
fallback string. -/
theorem C2_buffered_tools (events : List Json) :
    ((parse_tool_calls (accumulatedContent events)).1.isSome = true →
      buffered_response events true
        = ⟨none, (parse_tool_calls (accumulatedContent events)).1, "tool_calls"⟩)
  ∧ ((parse_tool_calls (accumulatedContent events)).1 = none →
      buffered_response events true
        = ⟨some (accumulatedContent events), none, "stop"⟩)
  ∧ ((collectContentParts events).isEmpty = true →
      buffered_response events true = ⟨some fallbackGreeting, none, "stop"⟩) := by
  have hshape : buffered_response events true
      = (if (parse_tool_calls (accumulatedContent events)).1.isSome then
          (⟨none, (parse_tool_calls (accumulatedContent events)).1,
            "tool_calls"⟩ : BufferedOutcome)
        else ⟨some (parse_tool_calls (accumulatedContent events)).2, none, "stop"⟩) := rfl
  refine ⟨?_, ?_, ?_⟩
  · intro h
    rw [hshape, if_pos h]
  · intro h
    rw [hshape, if_neg (by rw [h]; simp), parse_tool_calls_none_snd _ h]
  · intro h
    have hacc : accumulatedContent events = fallbackGreeting := by
      unfold accumulatedContent
      rw [h]
      rfl
    rw [hshape, hacc]
    have hfb : parse_tool_calls fallbackGreeting = (none, fallbackGreeting) := rfl
    rw [hfb]
    rfl

/-- C2 witness: with a decodable block in the single assistant event the
outcome is tool calls only with reason "tool_calls"; with no events the
outcome is the friendly fallback with reason "stop". -/
theorem C2_witness :
    buffered_response
      [mkObj [("type", Json.str "assistant"),
        ("message", mkObj [("content",
          Json.str "```tool_call\n\x7b\"name\":\"w\"\x7d\n```")])]] true
      = ⟨none, some [ToolCall.mk (generate_tool_call_id 0) "function"
          (FunctionCall.mk "w" "\x7b\x7d")], "tool_calls"⟩
  ∧ buffered_response [] true = ⟨some fallbackGreeting, none, "stop"⟩ := by
  constructor
  · rw [C2_buffered_tools [mkObj [("type", Json.str "assistant"),
      ("message", mkObj [("content",
        Json.str "```tool_call\n\x7b\"name\":\"w\"\x7d\n```")])]] |>.1 rfl]
    rfl
  · exact C2_buffered_tools [] |>.2.2 rfl

theorem is_result_not_assistant (m : Json) (h : is_result_message m = true) :
    is_assistant_message m = false := by
  unfold is_result_message at h
  unfold is_assistant_message
  cases hty : m.get "type" with
  | none => rw [hty] at h; cases h
  | some v =>
    rw [hty] at h
    cases v <;> try cases h
    case str t =>
      have : t = "result" := by simpa using h
      simp [this]

/-- C10: in buffered mode the accumulated content — used both as the
tool-call decoding input and as the final response text — is the extracted
texts of the assistant events that precede the first result event, in arrival
order, joined with single newlines (with the fixed fallback when there are
none). -/
theorem C10_accumulated_content (events : List Json) (has_tools : Bool) :
    collectContentParts events = specContentParts events
  ∧ buffered_response events has_tools
      = outcomeOfContent
          (if (specContentParts events).isEmpty then fallbackGreeting
           else String.intercalate "\n" (specContentParts events)) has_tools := by
  have hparts : collectContentParts events = specContentParts events := by
    induction events with
    | nil => rfl
    | cons m rest ih =>
      by_cases hres : is_result_message m = true
      · have hasst := is_result_not_assistant m hres
        show (if is_result_message m = true then _ else _) = _
        rw [if_pos hres]
        unfold specContentParts
        rw [List.takeWhile_cons, hres]
        simp [hasst]
      · have hres2 : is_result_message m = false := by
          cases hq : is_result_message m
          · rfl
          · exact absurd hq hres
        show (if is_result_message m = true then _ else _) = _
        rw [if_neg hres]
        unfold specContentParts
        rw [List.takeWhile_cons, hres2]
        simp only [Bool.not_false, if_true, List.filterMap_cons]
        unfold specContentParts at ih
        by_cases hasst : is_assistant_message m = true
        · rw [hasst]
          simp only [if_true]
          cases hx : extract_assistant_content m <;> simp [hx, ih]
        · have hasst2 : is_assistant_message m = false := by
            cases hq : is_assistant_message m
            · rfl
            · exact absurd hq hasst
          rw [hasst2]
          simp [ih]
  refine ⟨hparts, ?_⟩
  unfold buffered_response outcomeOfContent
  rw [hparts]

/-- C9: the token-streaming path's SSE sequence always begins with the
role-open chunk and always ends with a terminal chunk whose finish reason is
"stop" followed by the end marker, whatever the backend events were; with no
events at all it is exactly role-open, terminal "stop", marker. -/
theorem C9_stream_skeleton (id model : String) (created : Int) (events : List Json) :
    (token_stream_sse id model created events).head?
      = some (sse_event (initial_chunk id model created))
  ∧ [sse_event (final_chunk id model created "stop"), sse_done]
      <:+ token_stream_sse id model created events
  ∧ token_stream_sse id model created []
      = [sse_event (initial_chunk id model created),
         sse_event (final_chunk id model created "stop"), sse_done] := by
  refine ⟨rfl, ?_, rfl⟩
  exact ⟨sse_event (initial_chunk id model created) :: streamLoopChunks id model created events,
    by simp [token_stream_sse]⟩

/-- C3: replaying a buffered response that carries two tool calls and no text
content emits exactly one role-open chunk, zero content chunks, two tool-call
delta chunks indexed 0 and 1, one terminal chunk with finish reason
"tool_calls", then the end-of-stream marker — in that order. -/
theorem C3_replay_two_tool_calls (id model session_id project_id : String)
    (created : Int) (pt ct : Nat) (a b : ToolCall) :
    wrap_response_as_sse
      (chatCompletionResponseJson id created model none (some [a, b]) "tool_calls"
        pt ct session_id project_id)
      = [sse_event (replay_role_chunk id model created),
         sse_event (replay_tool_call_chunk id model created 0 (toolCallJson a)),
         sse_event (replay_tool_call_chunk id model created 1 (toolCallJson b)),
         sse_event (final_chunk id model created "tool_calls"),
         sse_done] := rfl

theorem isPrefixOf_drop (p : List Char) :
    ∀ l : List Char, p.isPrefixOf l = true → l = p ++ l.drop p.length := by
  induction p with
  | nil => intro l _; simp
  | cons a p ih =>
    intro l h
    cases l with
    | nil => cases h
    | cons b t =>
      have hsplit : (a == b && p.isPrefixOf t) = true := h
      have hab : a = b := eq_of_beq (Bool.and_eq_true _ _ |>.mp hsplit).1
      have ht : p.isPrefixOf t = true := (Bool.and_eq_true _ _ |>.mp hsplit).2
      rw [List.length_cons, List.drop_succ_cons, hab]
      exact congrArg (b :: ·) (ih t ht)

theorem findClose_append :
    ∀ (cs body rest : List Char), findClose cs = some (body, rest) →
      cs = body ++ closeLit ++ rest := by
  intro cs
  induction cs with
  | nil => intro body rest h; cases h
  | cons c t ih =>
    intro body rest h
    unfold findClose at h
    by_cases hp : closeLit.isPrefixOf (c :: t) = true
    · rw [if_pos hp] at h
      injection h with h2
      injection h2 with hb hr
      subst hb
      subst hr
      have h0 := isPrefixOf_drop closeLit (c :: t) hp
      rw [show closeLit.length = 4 from rfl] at h0
      rw [show (c :: t).drop 4 = t.drop 3 from rfl] at h0
      simpa using h0
    · rw [if_neg hp] at h
      cases hf : findClose t with
      | none => rw [hf] at h; cases h
      | some p =>
        rcases p with ⟨body2, rest2⟩
        rw [hf] at h
        injection h with h2
        injection h2 with hb hr
        subst hb
        subst hr
        simp [ih body2 rest2 hf]

theorem tryNl_findClose :
    ∀ (ks : List Nat) (afterLit : List Char) (k : Nat) (body rest : List Char),
      tryNlPositions ks afterLit = some (k, body, rest) →
      findClose (afterLit.drop (k + 1)) = some (body, rest) := by
  intro ks
  induction ks with
  | nil => intro afterLit k body rest h; cases h
  | cons k0 ks ih =>
    intro afterLit k body rest h
    unfold tryNlPositions at h
    cases hf : findClose (afterLit.drop (k0 + 1)) with
    | some p =>
      rcases p with ⟨body2, rest2⟩
      rw [hf] at h
      injection h with h2
      injection h2 with hk h3
      injection h3 with hb hr
      subst hk
      subst hb
      subst hr
      exact hf
    | none =>
      rw [hf] at h
      exact ih afterLit k body rest h

theorem matchFencedAt_eq (cs whole body rest : List Char)
    (h : matchFencedAt cs = some (whole, body, rest)) : cs = whole ++ rest := by
  unfold matchFencedAt at h
  by_cases hp : fencedLit.isPrefixOf cs = true
  · rw [if_pos hp] at h
    cases ht : tryNlPositions (newlinePositions ((cs.drop 12).takeWhile rustWS)) (cs.drop 12) with
    | none => rw [ht] at h; cases h
    | some trip =>
      rcases trip with ⟨k, body2, rest2⟩
      rw [ht] at h
      injection h with h2
      injection h2 with hw h3
      injection h3 with hb hr
      subst hw
      subst hb
      subst hr
      have h1 : cs = fencedLit ++ cs.drop 12 := by
        have h0 := isPrefixOf_drop fencedLit cs hp
        rwa [show fencedLit.length = 12 from rfl] at h0
      have h2 := findClose_append _ _ _ (tryNl_findClose _ _ _ _ _ ht)
      calc cs = fencedLit ++ cs.drop 12 := h1
        _ = fencedLit ++ ((cs.drop 12).take (k + 1) ++ (cs.drop 12).drop (k + 1)) := by
            rw [List.take_append_drop]
        _ = fencedLit ++ ((cs.drop 12).take (k + 1) ++ (body2 ++ closeLit ++ rest2)) := by
            rw [h2]
        _ = (fencedLit ++ (cs.drop 12).take (k + 1) ++ body2 ++ closeLit) ++ rest2 := by
            simp [List.append_assoc]
  · rw [if_neg hp] at h
    cases h

theorem scanFencedAux_reconstruct :
    ∀ (fuel : Nat) (revPre cs : List Char),
      interleaveMatches (scanFencedAux fuel revPre cs).1 (scanFencedAux fuel revPre cs).2
        = revPre.reverse ++ cs := by
  intro fuel
  induction fuel with
  | zero => intro revPre cs; rfl
  | succ fuel ih =>
    intro revPre cs
    cases hm : matchFencedAt cs with
    | some trip =>
      rcases trip with ⟨whole, body, rest⟩
      have heq : scanFencedAux (fuel + 1) revPre cs
          = (⟨revPre.reverse, body, whole⟩ :: (scanFencedAux fuel [] rest).1,
              (scanFencedAux fuel [] rest).2) := by
        show ((matchFencedAt cs).casesOn
            (cs.casesOn ([], revPre.reverse) fun c t => scanFencedAux fuel (c :: revPre) t)
            (fun trip =>
              (⟨revPre.reverse, trip.2.1, trip.1⟩ :: (scanFencedAux fuel [] trip.2.2).1,
                (scanFencedAux fuel [] trip.2.2).2)) : List TcMatch × List Char)
          = _
        rw [hm]
      rw [heq]
      have hrec := ih [] rest
      rw [show interleaveMatches
          (⟨revPre.reverse, body, whole⟩ :: (scanFencedAux fuel [] rest).1)
          (scanFencedAux fuel [] rest).2
        = revPre.reverse ++ (whole ++ interleaveMatches (scanFencedAux fuel [] rest).1
            (scanFencedAux fuel [] rest).2) from by simp [interleaveMatches]]
      rw [hrec]
      rw [matchFencedAt_eq cs whole body rest hm]
      simp
    | none =>
      have heq : scanFencedAux (fuel + 1) revPre cs
          = cs.casesOn ([], revPre.reverse) fun c t => scanFencedAux fuel (c :: revPre) t := by
        show ((matchFencedAt cs).casesOn
            (cs.casesOn ([], revPre.reverse) fun c t => scanFencedAux fuel (c :: revPre) t)
            (fun trip =>
              (⟨revPre.reverse, trip.2.1, trip.1⟩ :: (scanFencedAux fuel [] trip.2.2).1,
                (scanFencedAux fuel [] trip.2.2).2)) : List TcMatch × List Char)
          = _
        rw [hm]
      rw [heq]
      cases cs with
      | nil =>
        show interleaveMatches [] revPre.reverse = revPre.reverse ++ []
        simp [interleaveMatches]
      | cons c t =>
        show interleaveMatches (scanFencedAux fuel (c :: revPre) t).1
            (scanFencedAux fuel (c :: revPre) t).2 = revPre.reverse ++ (c :: t)
        rw [ih (c :: revPre) t]
        simp

theorem enumFrom_map_snd {α : Type} :
    ∀ (n : Nat) (l : List α), (List.enumFrom n l).map Prod.snd = l := by
  intro n l
  induction l generalizing n with
  | nil => rfl
  | cons a t ih => simp [List.enumFrom, ih]

theorem generate_tool_call_id_injective : Function.Injective generate_tool_call_id := by
  intro k1 k2 h
  have hd : ("call_".data ++ List.replicate (k1 + 1) 'u')
      = ("call_".data ++ List.replicate (k2 + 1) 'u') := by
    have h1 : (generate_tool_call_id k1).data
        = "call_".data ++ List.replicate (k1 + 1) 'u' := rfl
    have h2 : (generate_tool_call_id k2).data
        = "call_".data ++ List.replicate (k2 + 1) 'u' := rfl
    rw [← h1, ← h2, h]
  have hr := List.append_cancel_left hd
  have hl := congrArg List.length hr
  simp only [List.length_replicate] at hl
  omega

/-- C1 (amended): for every input text, `parse_tool_calls` returns one
`ToolCall` per matched fenced block whose trimmed body parses as JSON with a
string `name` field, in document order, each with the next id from the fresh
supply (all distinct); a block with invalid JSON is skipped while other valid
blocks are still returned; the matched spans and the gaps between them
interleave to exactly the original text; and when at least one call is
returned the cleaned text is the original with every matched span deleted and
the result trimmed — deleting spans can glue surrounding text into a new
occurrence of a matched block, so the cleaned text is not always free of the
matched blocks (see the counterexample). -/
theorem C1_parse_tool_calls (text : String) :
    interleaveMatches (scanFenced text.data).1 (scanFenced text.data).2 = text.data
  ∧ (((parse_tool_calls text).1.getD []).map fun c => (c.function.name, c.function.arguments))
      = (scanFenced text.data).1.filterMap (fun m => decodeToolCall m.body)
  ∧ ((((parse_tool_calls text).1.getD []).map fun c => c.id)).Nodup
  ∧ ((parse_tool_calls text).1.isSome = true →
      (parse_tool_calls text).2
        = strOf (trimChars (gapsJoin (scanFenced text.data).1 (scanFenced text.data).2))) := by
  have hshape1 := scanFencedAux_reconstruct (text.data.length + 1) [] text.data
  refine ⟨by simpa [scanFenced] using hshape1, ?_, ?_, ?_⟩
  · by_cases he : (scanFenced text.data).1.isEmpty
    · have hnil : (scanFenced text.data).1 = [] := List.isEmpty_iff.mp he
      have h1 : (parse_tool_calls text).1 = none := by
        unfold parse_tool_calls
        simp [he]
      rw [h1, hnil]
      rfl
    · cases hd : (scanFenced text.data).1.filterMap fun m => decodeToolCall m.body with
      | nil =>
        have h1 : (parse_tool_calls text).1 = none := by
          unfold parse_tool_calls
          simp [he, hd, List.enum]
        rw [h1]
        rfl
      | cons d t =>
        have h1 : (parse_tool_calls text).1
            = some (((d :: t).enum).map fun p =>
                ToolCall.mk (generate_tool_call_id p.1) "function"
                  (FunctionCall.mk p.2.1 p.2.2)) := by
          unfold parse_tool_calls
          simp [he, hd, List.enum]
        rw [h1]
        simp only [Option.getD_some, List.map_map]
        have : ((fun c => (c.function.name, c.function.arguments)) ∘ fun p =>
            ToolCall.mk (generate_tool_call_id p.1) "function"
              (FunctionCall.mk p.2.1 p.2.2))
            = fun p : Nat × String × String => ((p.2.1 : String), (p.2.2 : String)) := rfl
        rw [this]
        have h2 : (fun p : Nat × String × String => ((p.2.1 : String), (p.2.2 : String)))
            = Prod.snd := by
          funext p
          exact Prod.mk.eta
        rw [h2]
        exact enumFrom_map_snd 0 (d :: t)
  · by_cases he : (scanFenced text.data).1.isEmpty
    · have h1 : (parse_tool_calls text).1 = none := by
        unfold parse_tool_calls
        simp [he]
      rw [h1]
      exact List.nodup_nil
    · cases hd : (scanFenced text.data).1.filterMap fun m => decodeToolCall m.body with
      | nil =>
        have h1 : (parse_tool_calls text).1 = none := by
          unfold parse_tool_calls
          simp [he, hd, List.enum]
        rw [h1]
        exact List.nodup_nil
      | cons d t =>
        have h1 : (parse_tool_calls text).1
            = some (((d :: t).enum).map fun p =>
                ToolCall.mk (generate_tool_call_id p.1) "function"
                  (FunctionCall.mk p.2.1 p.2.2)) := by
          unfold parse_tool_calls
          simp [he, hd, List.enum]
        rw [h1]
        simp only [Option.getD_some, List.map_map]
        have : ((fun c => c.id) ∘ fun p : Nat × String × String =>
            ToolCall.mk (generate_tool_call_id p.1) "function"
              (FunctionCall.mk p.2.1 p.2.2))
            = generate_tool_call_id ∘ Prod.fst := rfl
        rw [this, ← List.map_map]
        exact (List.nodup_enum_map_fst (d :: t)).map generate_tool_call_id_injective
  · intro hs
    unfold parse_tool_calls at hs ⊢
    by_cases he : (scanFenced text.data).1.isEmpty
    · simp [he] at hs
    · cases hd : (scanFenced text.data).1.filterMap fun m => decodeToolCall m.body with
      | nil => simp [he, hd, List.enum] at hs
      | cons d t => simp [he, hd, List.enum]

/-- C1 witness: a text with one valid block (name `w`, arguments `{"x":1}`)
and one invalid-JSON block returns exactly the one decoded call, and the
cleaned text is the gap concatenation, trimmed. -/
theorem C1_witness :
    ((parse_tool_calls ("Hi\n```tool_call\n\x7b\"name\":\"w\",\"arguments\":\x7b\"x\":1\x7d\x7d\n```\nmid\n```tool_call\nnope\n```\nbye")).1.isSome = true)
  ∧ ((parse_tool_calls ("Hi\n```tool_call\n\x7b\"name\":\"w\",\"arguments\":\x7b\"x\":1\x7d\x7d\n```\nmid\n```tool_call\nnope\n```\nbye")).2
      = strOf (trimChars (gapsJoin
          (scanFenced ("Hi\n```tool_call\n\x7b\"name\":\"w\",\"arguments\":\x7b\"x\":1\x7d\x7d\n```\nmid\n```tool_call\nnope\n```\nbye").data).1
          (scanFenced ("Hi\n```tool_call\n\x7b\"name\":\"w\",\"arguments\":\x7b\"x\":1\x7d\x7d\n```\nmid\n```tool_call\nnope\n```\nbye").data).2)))
  ∧ (((parse_tool_calls ("Hi\n```tool_call\n\x7b\"name\":\"w\",\"arguments\":\x7b\"x\":1\x7d\x7d\n```\nmid\n```tool_call\nnope\n```\nbye")).1.getD []).map
      fun c => (c.function.name, c.function.arguments)) = [("w", "\x7b\"x\":1\x7d")]
  ∧ (parse_tool_calls ("Hi\n```tool_call\n\x7b\"name\":\"w\",\"arguments\":\x7b\"x\":1\x7d\x7d\n```\nmid\n```tool_call\nnope\n```\nbye")).2
      = "Hi\n\nmid\n\nbye" :=
  ⟨rfl,
   (C1_parse_tool_calls
     "Hi\n```tool_call\n\x7b\"name\":\"w\",\"arguments\":\x7b\"x\":1\x7d\x7d\n```\nmid\n```tool_call\nnope\n```\nbye").2.2.2 rfl,
   rfl, rfl⟩

/-- The first fenced block of the counterexample text: a valid tool call
named `a`. -/
def glueBlockA : String := "```tool_call\n\x7b\"name\":\"a\"\x7d\n```"

/-- A text on which deleting the two matched spans glues the surrounding
text into a new copy of the first matched block. -/
def glueText : String :=
  glueBlockA ++ "```tool_" ++ "```tool_call\n\x7b\"name\":\"b\"\x7d\n```"
    ++ "call\n\x7b\"name\":\"a\"\x7d\n```"

/-- C1 counterexample: on `glueText`, `parse_tool_calls` returns calls (both
blocks decode, names `a` and `b`), the matched spans are `glueBlockA` and the
`b` block, yet the cleaned text *is* `glueBlockA` — the original claim's
final conjunct, that the cleaned text contains none of the matched fenced
blocks, is false. -/
theorem C1_counterexample :
    ((parse_tool_calls glueText).1.isSome = true)
  ∧ (((scanFenced glueText.data).1.map fun m => strOf m.whole)
      = [glueBlockA, "```tool_call\n\x7b\"name\":\"b\"\x7d\n```"])
  ∧ (((parse_tool_calls glueText).1.getD []).map fun c => c.function.name) = ["a", "b"]
  ∧ (parse_tool_calls glueText).2 = glueBlockA
  ∧ glueBlockA.data <:+: ((parse_tool_calls glueText).2).data :=
  ⟨rfl, rfl, rfl, rfl, by rw [show (parse_tool_calls glueText).2 = glueBlockA from rfl]⟩

/-! ## Orchestrator invariants for kill/reap accounting -/

def handlesOf (l : List (String × Nat)) : List Nat := l.map Prod.snd

theorem lookupKey_mem_handles (k : String) :
    ∀ (l : List (String × Nat)) (p : Nat), lookupKey k l = some p → p ∈ handlesOf l := by
  intro l
  induction l with
  | nil => intro p h; cases h
  | cons e t ih =>
    intro p h
    unfold lookupKey at h
    by_cases hk : e.1 = k
    · rw [if_pos hk] at h
      injection h with h2
      exact h2 ▸ List.mem_cons_self _ _
    · rw [if_neg hk] at h
      exact List.mem_cons_of_mem _ (ih p h)

theorem removeKey_sublist (k : String) :
    ∀ l : List (String × Nat), (removeKey k l).Sublist l := by
  intro l
  induction l with
  | nil => simp [removeKey]
  | cons e t ih =>
    unfold removeKey
    by_cases hk : e.1 = k
    · rw [if_pos hk]
      exact List.sublist_cons_self e t
    · rw [if_neg hk]
      exact ih.cons₂ e

theorem mem_handles_insertKey (k : String) (v p : Nat) :
    ∀ l : List (String × Nat), p ∈ handlesOf (insertKey k v l) → p = v ∨ p ∈ handlesOf l := by
  intro l
  induction l with
  | nil =>
    intro h
    simp [insertKey, handlesOf] at h
    exact Or.inl h
  | cons e t ih =>
    intro h
    unfold insertKey at h
    by_cases hk : e.1 = k
    · rw [if_pos hk] at h
      rcases List.mem_cons.mp h with h | h
      · exact Or.inl h
      · exact Or.inr (List.mem_cons_of_mem _ h)
    · rw [if_neg hk] at h
      rcases List.mem_cons.mp h with h | h
      · exact Or.inr (h ▸ List.mem_cons_self _ _)
      · rcases ih h with h | h
        · exact Or.inl h
        · exact Or.inr (List.mem_cons_of_mem _ h)

theorem handles_insertKey_nodup (k : String) (v : Nat) :
    ∀ l : List (String × Nat), (handlesOf l).Nodup → v ∉ handlesOf l →
      (handlesOf (insertKey k v l)).Nodup := by
  intro l
  induction l with
  | nil => intro _ _; simp [insertKey, handlesOf]
  | cons e t ih =>
    intro hnd hv
    have hnd1 : e.2 ∉ handlesOf t := (List.nodup_cons.mp hnd).1
    have hnd2 : (handlesOf t).Nodup := (List.nodup_cons.mp hnd).2
    have hv1 : v ≠ e.2 := fun h => hv (h ▸ List.mem_cons_self _ _)
    have hv2 : v ∉ handlesOf t := fun h => hv (List.mem_cons_of_mem _ h)
    unfold insertKey
    by_cases hk : e.1 = k
    · rw [if_pos hk]
      exact List.nodup_cons.mpr ⟨hv2, hnd2⟩
    · rw [if_neg hk]
      refine List.nodup_cons.mpr ⟨?_, ih hnd2 hv2⟩
      intro hmem
      rcases mem_handles_insertKey k v e.2 t hmem with h | h
      · exact hv1 h.symm
      · exact hnd1 h

theorem lookupKey_not_mem_handles_removeKey (k : String) :
    ∀ (l : List (String × Nat)) (p : Nat), (handlesOf l).Nodup →
      lookupKey k l = some p → p ∉ handlesOf (removeKey k l) := by
  intro l
  induction l with
  | nil => intro p _ h; cases h
  | cons e t ih =>
    intro p hnd h
    have hnd1 : e.2 ∉ handlesOf t := (List.nodup_cons.mp hnd).1
    have hnd2 : (handlesOf t).Nodup := (List.nodup_cons.mp hnd).2
    unfold lookupKey at h
    unfold removeKey
    by_cases hk : e.1 = k
    · rw [if_pos hk] at h
      injection h with h2
      rw [if_pos hk]
      exact h2 ▸ hnd1
    · rw [if_neg hk] at h
      rw [if_neg hk]
      intro hmem
      rcases List.mem_cons.mp hmem with hm | hm
      · exact hnd1 (hm ▸ lookupKey_mem_handles k t p h)
      · exact ih p hnd2 h hm

/-- The orchestrator invariant: fate entries name pairwise-distinct process
handles, no tracked process already has a fate, handles are allocated below
the counter, and tracked handles are pairwise distinct. -/
def MgrInv (st : SysState) : Prop :=
  (st.fates.map Prod.fst).Nodup
  ∧ (∀ p ∈ handlesOf st.active, p ∉ st.fates.map Prod.fst)
  ∧ (∀ p ∈ handlesOf st.active, p < st.next)
  ∧ (∀ q ∈ st.fates.map Prod.fst, q < st.next)
  ∧ (handlesOf st.active).Nodup

theorem mgrInv_init (maxC : Nat) : MgrInv (initState maxC) := by
  refine ⟨List.nodup_nil, ?_, ?_, ?_, List.nodup_nil⟩ <;> intro p h <;> cases h

theorem stop_session_eq_some (st : SysState) (k : String) (p : Nat)
    (h : lookupKey k st.active = some p) :
    stop_session st k = SysState.mk (removeKey k st.active)
      (st.fates ++ [kill_process p]) st.next st.max_concurrent := by
  unfold stop_session
  rw [h]

theorem stop_session_eq_none (st : SysState) (k : String)
    (h : lookupKey k st.active = none) : stop_session st k = st := by
  unfold stop_session
  rw [h]

theorem session_finished_eq_some (st : SysState) (k : String) (p : Nat)
    (h : lookupKey k st.active = some p) :
    session_finished st k = SysState.mk (removeKey k st.active)
      (st.fates ++ [reap_process p]) st.next st.max_concurrent := by
  unfold session_finished
  rw [h]

theorem session_finished_eq_none (st : SysState) (k : String)
    (h : lookupKey k st.active = none) : session_finished st k = st := by
  unfold session_finished
  rw [h]

theorem mgrInv_removal (st : SysState) (k : String) (p : Nat) (f : Fate)
    (hinv : MgrInv st) (hl : lookupKey k st.active = some p) :
    MgrInv (SysState.mk (removeKey k st.active) (st.fates ++ [(p, f)])
      st.next st.max_concurrent) := by
  obtain ⟨h1, h2, h3, h4, h5⟩ := hinv
  have hpmem := lookupKey_mem_handles k st.active p hl
  have hsub := (removeKey_sublist k st.active).map Prod.snd
  refine ⟨?_, ?_, ?_, ?_, ?_⟩
  · show (List.map Prod.fst (st.fates ++ [(p, f)])).Nodup
    rw [List.map_append]
    rw [List.nodup_append]
    refine ⟨h1, List.nodup_singleton p, ?_⟩
    intro a ha hb
    rcases List.mem_singleton.mp (by simpa using hb) with rfl
    exact h2 a hpmem ha
  · show ∀ q ∈ handlesOf (removeKey k st.active),
      q ∉ List.map Prod.fst (st.fates ++ [(p, f)])
    intro q hq
    rw [List.map_append]
    intro hmem
    rcases List.mem_append.mp hmem with hm | hm
    · exact h2 q (hsub.mem hq) hm
    · rcases List.mem_singleton.mp (by simpa using hm) with rfl
      exact lookupKey_not_mem_handles_removeKey k st.active q h5 hl hq
  · show ∀ q ∈ handlesOf (removeKey k st.active), q < st.next
    intro q hq
    exact h3 q (hsub.mem hq)
  · show ∀ q ∈ List.map Prod.fst (st.fates ++ [(p, f)]), q < st.next
    intro q hq
    rw [List.map_append] at hq
    rcases List.mem_append.mp hq with hm | hm
    · exact h4 q hm
    · rcases List.mem_singleton.mp (by simpa using hm) with rfl
      exact h3 q hpmem
  · show (handlesOf (removeKey k st.active)).Nodup
    exact h5.sublist hsub

theorem mgrInv_applyOp (st : SysState) (op : MgrOp) (hinv : MgrInv st) :
    MgrInv (applyOp st op) := by
  obtain ⟨h1, h2, h3, h4, h5⟩ := hinv
  cases op with
  | create sid csid =>
    by_cases hcap : st.active.length ≥ st.max_concurrent
    · have heq : applyOp st (.create sid csid) = st := by
        show (match create_session st sid (.ok csid) with
              | .ok (st2, _) => st2
              | .error _ => st) = st
        unfold create_session
        rw [if_pos hcap]
      rw [heq]
      exact ⟨h1, h2, h3, h4, h5⟩
    · have heq : applyOp st (.create sid csid)
          = SysState.mk (insertKey (csid.getD sid) st.next st.active) st.fates
              (st.next + 1) st.max_concurrent := by
        show (match create_session st sid (.ok csid) with
              | .ok (st2, _) => st2
              | .error _ => st) = _
        unfold create_session
        rw [if_neg hcap]
      rw [heq]
      have hfresh : st.next ∉ handlesOf st.active := fun hmem =>
        Nat.lt_irrefl st.next (h3 st.next hmem)
      refine ⟨h1, ?_, ?_, ?_, ?_⟩
      · show ∀ q ∈ handlesOf (insertKey (csid.getD sid) st.next st.active),
          q ∉ List.map Prod.fst st.fates
        intro q hq
        rcases mem_handles_insertKey _ _ _ _ hq with h | h
        · exact h ▸ fun hx => Nat.lt_irrefl st.next (h4 st.next hx)
        · exact h2 q h
      · show ∀ q ∈ handlesOf (insertKey (csid.getD sid) st.next st.active),
          q < st.next + 1
        intro q hq
        rcases mem_handles_insertKey _ _ _ _ hq with h | h
        · exact h ▸ Nat.lt_succ_self _
        · exact Nat.lt_trans (h3 q h) (Nat.lt_succ_self _)
      · show ∀ q ∈ List.map Prod.fst st.fates, q < st.next + 1
        intro q hq
        exact Nat.lt_trans (h4 q hq) (Nat.lt_succ_self _)
      · show (handlesOf (insertKey (csid.getD sid) st.next st.active)).Nodup
        exact handles_insertKey_nodup _ _ _ h5 hfresh
  | stop k =>
    show MgrInv (stop_session st k)
    cases hl : lookupKey k st.active with
    | none =>
      rw [stop_session_eq_none st k hl]
      exact ⟨h1, h2, h3, h4, h5⟩
    | some p =>
      rw [stop_session_eq_some st k p hl]
      exact mgrInv_removal st k p Fate.killed ⟨h1, h2, h3, h4, h5⟩ hl
  | finished k =>
    show MgrInv (session_finished st k)
    cases hl : lookupKey k st.active with
    | none =>
      rw [session_finished_eq_none st k hl]
      exact ⟨h1, h2, h3, h4, h5⟩
    | some p =>
      rw [session_finished_eq_some st k p hl]
      exact mgrInv_removal st k p Fate.reaped ⟨h1, h2, h3, h4, h5⟩ hl

theorem mgrInv_runOps (st : SysState) (ops : List MgrOp) (hinv : MgrInv st) :
    MgrInv (runOps st ops) := by
  induction ops generalizing st with
  | nil => exact hinv
  | cons op rest ih => exact ih (applyOp st op) (mgrInv_applyOp st op hinv)

theorem lookupKey_removeKey_other (k k2 : String) (hne : k2 ≠ k) :
    ∀ l : List (String × Nat), lookupKey k2 (removeKey k l) = lookupKey k2 l := by
  intro l
  induction l with
  | nil => rfl
  | cons e t ih =>
    show lookupKey k2 (if e.1 = k then t else e :: removeKey k t) = lookupKey k2 (e :: t)
    by_cases hk : e.1 = k
    · rw [if_pos hk]
      rw [show lookupKey k2 (e :: t) = if e.1 = k2 then some e.2 else lookupKey k2 t
        from rfl]
      rw [if_neg fun h : e.1 = k2 => hne (h ▸ hk)]
    · rw [if_neg hk]
      rw [show lookupKey k2 (e :: removeKey k t)
          = if e.1 = k2 then some e.2 else lookupKey k2 (removeKey k t) from rfl]
      rw [show lookupKey k2 (e :: t) = if e.1 = k2 then some e.2 else lookupKey k2 t
        from rfl]
      by_cases hk2 : e.1 = k2
      · rw [if_pos hk2, if_pos hk2]
      · rw [if_neg hk2, if_neg hk2, ih]

/-- C7 (amended): `session_finished` removes the entry if present, leaves
every other key's binding unchanged, and records a reap (wait for natural
exit), never a kill, of exactly that process; on an untracked id it is a
no-op; and over any operation sequence from the initial state every process
receives at most one of forced kill / reap — but not always exactly one: a
key-colliding create evicts the earlier process, which then receives neither
(see the counterexample). -/
theorem C7_session_finished :
    (∀ (st : SysState) (k : String) (p : Nat), lookupKey k st.active = some p →
      (session_finished st k).active = removeKey k st.active
      ∧ (∀ k2, k2 ≠ k →
          lookupKey k2 (session_finished st k).active = lookupKey k2 st.active)
      ∧ (session_finished st k).fates = st.fates ++ [reap_process p]
      ∧ reap_process p ≠ kill_process p)
  ∧ (∀ (st : SysState) (k : String), lookupKey k st.active = none →
      session_finished st k = st)
  ∧ (∀ (maxC : Nat) (ops : List MgrOp),
      ((runOps (initState maxC) ops).fates.map Prod.fst).Nodup) := by
  refine ⟨?_, ?_, ?_⟩
  · intro st k p hl
    rw [session_finished_eq_some st k p hl]
    refine ⟨rfl, ?_, rfl, ?_⟩
    · intro k2 hne
      exact lookupKey_removeKey_other k k2 hne st.active
    · intro h
      exact Fate.noConfusion (congrArg Prod.snd h)
  · exact session_finished_eq_none
  · intro maxC ops
    exact (mgrInv_runOps (initState maxC) ops (mgrInv_init maxC)).1

/-- C7 witness: with sessions `a`, `b` tracked, finishing `a` removes it,
leaves `b`'s binding unchanged, and records exactly one reap of process 0;
and a concrete create/stop/finished trace has pairwise-distinct fate
handles. -/
theorem C7_witness :
    (session_finished ⟨[("a", 0), ("b", 1)], [], 2, 4⟩ "a").active
      = removeKey "a" [("a", 0), ("b", 1)]
  ∧ lookupKey "b" (session_finished ⟨[("a", 0), ("b", 1)], [], 2, 4⟩ "a").active
      = lookupKey "b" [("a", 0), ("b", 1)]
  ∧ (session_finished ⟨[("a", 0), ("b", 1)], [], 2, 4⟩ "a").fates = [(0, Fate.reaped)]
  ∧ ((runOps (initState 4) [.create "a" none, .stop "a", .finished "a"]).fates.map
      Prod.fst).Nodup :=
  ⟨(C7_session_finished.1 ⟨[("a", 0), ("b", 1)], [], 2, 4⟩ "a" 0 rfl).1,
   (C7_session_finished.1 ⟨[("a", 0), ("b", 1)], [], 2, 4⟩ "a" 0 rfl).2.1 "b" (by decide),
   by rw [(C7_session_finished.1 ⟨[("a", 0), ("b", 1)], [], 2, 4⟩ "a" 0 rfl).2.2.1]; rfl,
   C7_session_finished.2.2 4 [.create "a" none, .stop "a", .finished "a"]⟩

/-- C7 counterexample: "exactly one of kill or reap occurs per process" fails.
Creating session key `s` twice makes the second insert evict the first
process (handle 0) from the table without killing or reaping it; after the
session is finished the system is empty, yet only process 1 ever received a
fate — process 0 received neither, even though it was spawned. -/
theorem C7_counterexample :
    (runOps (initState 5) [.create "s" none, .create "s" none, .finished "s"]).next = 2
  ∧ (runOps (initState 5) [.create "s" none, .create "s" none, .finished "s"]).active = []
  ∧ (runOps (initState 5) [.create "s" none, .create "s" none, .finished "s"]).fates
      = [(1, Fate.reaped)]
  ∧ (0 : Nat) ∉ ((runOps (initState 5)
      [.create "s" none, .create "s" none, .finished "s"]).fates.map Prod.fst) := by
  refine ⟨rfl, rfl, rfl, ?_⟩
  rw [show ((runOps (initState 5)
      [.create "s" none, .create "s" none, .finished "s"]).fates.map Prod.fst)
    = [1] from rfl]
  simp

end Gateway
